import Mathlib

/-!
Admin console script: form validation and admin actions.

A shallow embedding of `src/main/resources/static/js/admin.js`.

* JavaScript strings are Lean strings (well-formed Unicode text); `.length` counts UTF-16 code
  units, as JavaScript does.
* The DOM is kept as far as the script reads and writes it: per parent element, the form fields
  and the `invalid-feedback` elements among its children, in document order.
* `$.ajax` and `showAlert` calls are recorded as a list of effects.
-/

namespace Admin

/-! ## Strings -/

/-- White space and line terminators of JavaScript: the characters removed by
`String.prototype.trim`, skipped by `parseInt`, and matched by the class `\s`. -/
def isWhiteSpace (c : Char) : Bool :=
  let n := c.toNat
  n == 0x09 || n == 0x0A || n == 0x0B || n == 0x0C || n == 0x0D || n == 0x20 || n == 0xA0 ||
  n == 0x1680 || (0x2000 ≤ n && n ≤ 0x200A) || n == 0x2028 || n == 0x2029 || n == 0x202F ||
  n == 0x205F || n == 0x3000 || n == 0xFEFF

/-- Drop white space at both ends of a list of characters. -/
def trimChars (l : List Char) : List Char :=
  ((l.dropWhile isWhiteSpace).reverse.dropWhile isWhiteSpace).reverse

/-- The method `String.prototype.trim`. -/
def trim (s : String) : String := ⟨trimChars s.data⟩

/-- The `length` of a JavaScript string: its number of UTF-16 code units (two for a character
outside the basic plane). -/
def jsLength (s : String) : Nat :=
  (s.data.map fun c => if c.toNat < 0x10000 then 1 else 2).sum

/-- Truthiness of a string: the empty string is falsy, every other string truthy. -/
def truthyStr (s : String) : Bool := !s.data.isEmpty

/-! ## Regular expressions -/

/-- Regular expressions, as far as the script uses them (character classes, sequencing, `+`),
closed under what their derivatives need. -/
inductive Regex where
  | never : Regex
  | empty : Regex
  | cls (p : Char → Bool) : Regex
  | alt (a b : Regex) : Regex
  | seq (a b : Regex) : Regex
  | plus (a : Regex) : Regex

namespace Regex

/-- Whether the expression matches the empty string. -/
def nullable : Regex → Bool
  | never => false
  | empty => true
  | cls _ => false
  | alt a b => a.nullable || b.nullable
  | seq a b => a.nullable && b.nullable
  | plus a => a.nullable

/-- What is left to match after reading the character `c`. -/
def deriv : Regex → Char → Regex
  | never, _ => never
  | empty, _ => never
  | cls p, c => if p c then empty else never
  | alt a b, c => alt (a.deriv c) (b.deriv c)
  | seq a b, c => if a.nullable then alt (seq (a.deriv c) b) (b.deriv c) else seq (a.deriv c) b
  | plus a, c => seq (a.deriv c) (alt empty (plus a))

/-- Whether the expression matches the whole list of characters. -/
def matchesAll : Regex → List Char → Bool
  | r, [] => r.nullable
  | r, c :: cs => (r.deriv c).matchesAll cs

/-- The method `RegExp.prototype.test` for an expression anchored as `^...$` (no flags). -/
def test (r : Regex) (s : String) : Bool := r.matchesAll s.data

end Regex

/-- The class `[^\s@]`. -/
def notSpaceNorAt (c : Char) : Bool := !(isWhiteSpace c || c == '@')

/-- The expression `/^[^\s@]+@[^\s@]+\.[^\s@]+$/` of `validateField`. -/
def emailRegex : Regex :=
  .seq (.plus (.cls notSpaceNorAt))
    (.seq (.cls (· == '@'))
      (.seq (.plus (.cls notSpaceNorAt))
        (.seq (.cls (· == '.')) (.plus (.cls notSpaceNorAt)))))

/-! ## Form fields and the DOM around them -/

/-- An `input`, `select` or `textarea` element, with what `validateField` reads and writes. -/
structure Field where
  /-- The `required` attribute / property. -/
  required : Bool
  /-- The `type` attribute, `none` when absent. -/
  type : Option String
  /-- The `name` attribute, `none` when absent. -/
  name : Option String
  /-- What `$field.val()` returns: a string, for an `input`, a `textarea`, and a `select` with
  one option chosen. -/
  value : String
  /-- Whether the element carries the class `is-valid`. -/
  isValid : Bool
  /-- Whether the element carries the class `is-invalid`. -/
  isInvalid : Bool
deriving DecidableEq, Repr

/-- The children of one parent element, as far as the script is concerned: the
`invalid-feedback` elements before the first field (`lead`), then each field together with the
texts of the `invalid-feedback` elements between it and the next field. Other children take no
part in any operation of the script. -/
structure Group where
  lead : List String
  fields : List (Field × List String)
deriving DecidableEq, Repr

/-- The parents of a form's fields, in document order. -/
abbrev Dom := List Group

/-- A field of the DOM: the number of its parent and its rank among the fields of that parent. -/
abbrev Ref := Nat × Nat

/-- Apply `f` to the element at position `i` of a list. -/
def updateAt {α : Type} (f : α → α) : List α → Nat → List α
  | [], _ => []
  | x :: xs, 0 => f x :: xs
  | x :: xs, n + 1 => x :: updateAt f xs n

/-- The field a reference points to, with the messages that follow it. -/
def entryAt (d : Dom) (r : Ref) : Option (Field × List String) :=
  match d[r.1]? with
  | none => none
  | some g => g.fields[r.2]?

/-- The field a reference points to. -/
def fieldAt (d : Dom) (r : Ref) : Option Field := (entryAt d r).map Prod.fst

/-- The texts of the `invalid-feedback` elements right after a field. -/
def messagesAt (d : Dom) (r : Ref) : Option (List String) := (entryAt d r).map Prod.snd

/-- Apply `f` to the field of rank `r.2` under parent `r.1`, with the messages after it. -/
def updateEntry (f : Field × List String → Field × List String) (d : Dom) (r : Ref) : Dom :=
  updateAt (fun g => Group.mk g.lead (updateAt f g.fields r.2)) d r.1

/-- The call `$field.removeClass("is-valid is-invalid")`. -/
def removeValidityClasses (d : Dom) (r : Ref) : Dom :=
  updateEntry (fun e => (Field.mk e.1.required e.1.type e.1.name e.1.value false false, e.2)) d r

/-- The call `$field.siblings(".invalid-feedback").remove()`: every `invalid-feedback` element under the
parent of the field is removed, whichever field it follows. -/
def removeSiblingFeedback (d : Dom) (r : Ref) : Dom :=
  updateAt (fun g => Group.mk [] (g.fields.map fun e => (e.1, []))) d r.1

/-- The function `showFieldError($field, message)`: add the class `is-invalid` and insert an
`invalid-feedback` element right after the field. -/
def showFieldError (d : Dom) (r : Ref) (message : String) : Dom :=
  updateEntry (fun e =>
    (Field.mk e.1.required e.1.type e.1.name e.1.value e.1.isValid true, message :: e.2)) d r

/-- The call `$field.addClass("is-valid")`. -/
def addValidClass (d : Dom) (r : Ref) : Dom :=
  updateEntry (fun e =>
    (Field.mk e.1.required e.1.type e.1.name e.1.value true e.1.isInvalid, e.2)) d r

/-- The function `validateField(field)`: the DOM after the call and the value returned; `none` when the
reference points to no element (`$field.val()` is then `undefined` and `.trim()` throws). -/
def validateField (d : Dom) (r : Ref) : Option (Dom × Bool) :=
  match fieldAt d r with
  | none => none
  | some field =>
    let value := trim field.value
    let type := field.type
    let name := field.name
    let d₁ := removeValidityClasses d r
    let d₂ := removeSiblingFeedback d₁ r
    if field.required && !truthyStr value then
      some (showFieldError d₂ r "This field is required", false)
    else if type == some "email" && truthyStr value && !emailRegex.test value then
      some (showFieldError d₂ r "Please enter a valid email address", false)
    else if name == some "password" && truthyStr value && decide (jsLength value < 8) then
      some (showFieldError d₂ r "Password must be at least 8 characters long", false)
    else if name == some "username" && truthyStr value && decide (jsLength value < 3) then
      some (showFieldError d₂ r "Username must be at least 3 characters long", false)
    else
      some (addValidClass d₂ r, true)

/-- JavaScript values as `JSON.parse` yields them, and `undefined` for an absent property. A
number is given by its exact value. -/
inductive JsValue where
  | undefined : JsValue
  | null : JsValue
  | bool (b : Bool) : JsValue
  | number (x : ℚ) : JsValue
  | string (s : String) : JsValue
  | array (items : List JsValue) : JsValue
  | object (props : List (String × JsValue)) : JsValue

/-- Exceptions thrown by the built-ins the script calls. -/
inductive JsError where
  | syntaxError : JsError
  | typeError : JsError
deriving DecidableEq, Repr

/-- The conversion to boolean applied by `||`. -/
def JsValue.truthy : JsValue → Bool
  | .undefined => false
  | .null => false
  | .bool b => b
  | .number x => decide (x ≠ 0)
  | .string s => truthyStr s
  | .array _ => true
  | .object _ => true

/-- The own property `key` of an object, given by its list of own properties; `undefined` when
it has none of that name. -/
def lookupProp (key : String) : List (String × JsValue) → JsValue
  | [] => .undefined
  | (k, v) :: rest => if k = key then v else lookupProp key rest

/-- Property access `v.message`: a `TypeError` on `null` and `undefined`, the own property on an
object, `undefined` on every other value. -/
def JsValue.message : JsValue → Except JsError JsValue
  | .undefined => .error .typeError
  | .null => .error .typeError
  | .object props => .ok (lookupProp "message" props)
  | _ => .ok .undefined

/-- The seven admin actions. -/
inductive AdminAction where
  | createUser | blockUser | unblockUser | deleteUser
  | resetPassword | lockUserAccount | unlockUserAccount
deriving DecidableEq, Repr

/-- What the script does to the outside, in order. -/
inductive Effect where
  /-- A call `$.ajax` with this method and URL, whose callbacks are those of the action. -/
  | ajax (method : String) (url : String) (callbacks : AdminAction) : Effect
  /-- A call `showAlert(message, type)`. -/
  | alert (message : JsValue) (type : String) : Effect

/-- The constant `API_BASE_URL`. -/
def API_BASE_URL : String := "/api/admin"

/-! ## `encodeURIComponent`, `parseInt` -/

/-- The characters `encodeURIComponent` leaves as they are: letters, digits, the marks
`- _ . ! ~ *`, the apostrophe and the two round brackets. -/
def isUriUnreserved (c : Char) : Bool :=
  let n := c.toNat
  (0x41 ≤ n && n ≤ 0x5A) || (0x61 ≤ n && n ≤ 0x7A) || (0x30 ≤ n && n ≤ 0x39) ||
  n == 0x2D || n == 0x5F || n == 0x2E || n == 0x21 || n == 0x7E || n == 0x2A || n == 0x27 ||
  n == 0x28 || n == 0x29

/-- The UTF-8 bytes of a code point. -/
def utf8Bytes (n : Nat) : List Nat :=
  if n < 0x80 then [n]
  else if n < 0x800 then [0xC0 + n / 64, 0x80 + n % 64]
  else if n < 0x10000 then [0xE0 + n / 4096, 0x80 + n / 64 % 64, 0x80 + n % 64]
  else [0xF0 + n / 262144, 0x80 + n / 4096 % 64, 0x80 + n / 64 % 64, 0x80 + n % 64]

/-- An upper-case hexadecimal digit. -/
def hexDigit (n : Nat) : Char :=
  if n < 10 then Char.ofNat (0x30 + n) else Char.ofNat (0x41 + (n - 10))

/-- The escape `%XX` of a byte. -/
def percentByte (b : Nat) : List Char := ['%', hexDigit (b / 16), hexDigit (b % 16)]

/-- The function `encodeURIComponent` on well-formed text. -/
def encodeURIComponent (s : String) : String :=
  ⟨s.data.flatMap fun c =>
    if isUriUnreserved c then [c] else (utf8Bytes c.toNat).flatMap percentByte⟩

/-- The value of a digit in radix 10 or 16, `none` for any other character. -/
def digitValue (radix : Nat) (c : Char) : Option Nat :=
  let n := c.toNat
  if 0x30 ≤ n && n ≤ 0x39 then some (n - 0x30)
  else if radix == 16 && 0x41 ≤ n && n ≤ 0x46 then some (n - 0x41 + 10)
  else if radix == 16 && 0x61 ≤ n && n ≤ 0x66 then some (n - 0x61 + 10)
  else none

/-- The number denoted by the longest run of digits at the start of the list, `none` when the
run is empty. -/
def leadingDigits (radix : Nat) : List Char → Option Nat → Option Nat
  | [], acc => acc
  | c :: cs, acc =>
    match digitValue radix c with
    | none => acc
    | some v => leadingDigits radix cs (some (acc.getD 0 * radix + v))

/-- The sign read by `parseInt`, and the text after it: a leading `-` gives sign -1, a leading
`-` or `+` is removed. -/
def readSign : List Char → Int × List Char
  | '-' :: rest => (-1, rest)
  | '+' :: rest => (1, rest)
  | S => (1, S)

/-- The radix chosen by `parseInt` when none is given, and the text after the prefix: a leading
`0x` or `0X` is removed and selects radix 16, anything else leaves radix 10. -/
def readRadix : List Char → Nat × List Char
  | '0' :: 'x' :: rest => (16, rest)
  | '0' :: 'X' :: rest => (16, rest)
  | S => (10, S)

/-- The function `parseInt(string)` with no radix given; `none` is `NaN`. Leading white space is
skipped, a sign is read, a prefix `0x` or `0X` selects radix 16, and the longest run of digits
that follows is the result: what comes after that run is ignored. The result is the exact
integer; the rounding of a long run to a double keeps its sign, which is all the script reads. -/
def parseInt (s : String) : Option Int :=
  let signed := readSign (s.data.dropWhile isWhiteSpace)
  let radixed := readRadix signed.2
  match leadingDigits radixed.1 radixed.2 none with
  | none => none
  | some mathInt => some (signed.1 * mathInt)

/-- The comparison `x > 0` on a result of `parseInt`; false on `NaN`. -/
def gtZero : Option Int → Bool
  | none => false
  | some n => decide (0 < n)

/-! ## Admin actions -/

/-- The function `resetPassword(userId)`, given what `prompt` returns (`none` when cancelled). -/
def resetPassword (userId : String) (prompted : Option String) : List Effect :=
  match prompted with
  | none => []
  | some newPassword =>
    if truthyStr newPassword && decide (jsLength newPassword ≥ 8) then
      [.ajax "POST" (API_BASE_URL ++ "/users/" ++ userId ++ "/reset-password?newPassword=" ++
        encodeURIComponent newPassword ++ "&resetBy=admin") .resetPassword]
    else if truthyStr newPassword then
      [.alert (.string "Password must be at least 8 characters long") "warning"]
    else []

/-- The function `lockUserAccount(userId)`, given what `prompt` returns (`none` when cancelled). -/
def lockUserAccount (userId : String) (prompted : Option String) : List Effect :=
  match prompted with
  | none => []
  | some minutes =>
    if truthyStr minutes && gtZero (parseInt minutes) then
      [.ajax "POST" (API_BASE_URL ++ "/users/" ++ userId ++ "/lock?minutes=" ++ minutes ++
        "&lockedBy=admin") .lockUserAccount]
    else []

/-- The fallback text in the `error` callback of each action. -/
def genericError : AdminAction → String
  | .createUser => "Error creating user"
  | .blockUser => "Error blocking user"
  | .unblockUser => "Error unblocking user"
  | .deleteUser => "Error deleting user"
  | .resetPassword => "Error resetting password"
  | .lockUserAccount => "Error locking user account"
  | .unlockUserAccount => "Error unlocking user account"

/-- The `error` callback of an action, given the outcome of `JSON.parse(xhr.responseText)`: the
value parsed, or the `SyntaxError` thrown on a body that is not JSON. The callback has no
`try`: an exception leaves it before `showAlert` is reached. -/
def onError (a : AdminAction) (parsed : Except JsError JsValue) :
    Except JsError (List Effect) :=
  match parsed with
  | .error e => .error e
  | .ok response =>
    match response.message with
    | .error e => .error e
    | .ok message =>
      .ok [.alert (if message.truthy then message else .string (genericError a)) "danger"]

/-! ## Auxiliary definitions for the proofs -/

/-- The message of the first rule of `validateField` that the field breaks, `none` when it
breaks none. -/
def verdict (f : Field) : Option String :=
  if f.required && !truthyStr (trim f.value) then
    some "This field is required"
  else if f.type == some "email" && truthyStr (trim f.value)
      && !emailRegex.test (trim f.value) then
    some "Please enter a valid email address"
  else if f.name == some "password" && truthyStr (trim f.value)
      && decide (jsLength (trim f.value) < 8) then
    some "Password must be at least 8 characters long"
  else if f.name == some "username" && truthyStr (trim f.value)
      && decide (jsLength (trim f.value) < 3) then
    some "Username must be at least 3 characters long"
  else none

/-- The field and its messages as `validateField` leaves them. -/
def decorate (e : Field × List String) : Field × List String :=
  match verdict e.1 with
  | some m => (Field.mk e.1.required e.1.type e.1.name e.1.value false true, [m])
  | none => (Field.mk e.1.required e.1.type e.1.name e.1.value true false, [])

/-- The strings an expression denotes. -/
def Regex.lang : Regex → Language Char
  | .never => 0
  | .empty => 1
  | .cls p => {w | ∃ c, w = [c] ∧ p c = true}
  | .alt a b => a.lang + b.lang
  | .seq a b => a.lang * b.lang
  | .plus a => a.lang * KStar.kstar a.lang

/-- The shape `local@domain.tld` in the words of the specification: a run of one or more
characters that are neither white space nor `@`, then `@`, then another such run, then `.`,
then another such run, and nothing else. -/
def EmailShape (s : String) : Prop :=
  ∃ a b c : List Char, s.data = a ++ '@' :: (b ++ '.' :: c) ∧ a ≠ [] ∧ b ≠ [] ∧ c ≠ [] ∧
    (∀ x ∈ a, isWhiteSpace x = false ∧ x ≠ '@') ∧
    (∀ x ∈ b, isWhiteSpace x = false ∧ x ≠ '@') ∧
    (∀ x ∈ c, isWhiteSpace x = false ∧ x ≠ '@')

/-- Whether an effect is a request. -/
def Effect.isRequest : Effect → Bool
  | .ajax _ _ _ => true
  | .alert _ _ => false

/-- Whether an effect is a notification. -/
def Effect.isAlert : Effect → Bool
  | .ajax _ _ _ => false
  | .alert _ _ => true

/-- The decoration of a field is in step with its message: the field carries `is-invalid`
exactly when a message follows it, it does not carry both `is-valid` and `is-invalid`, and at
most one message follows it. -/
def Synced (e : Field × List String) : Prop :=
  (e.1.isInvalid = true ↔ e.2 ≠ []) ∧ ¬ (e.1.isValid = true ∧ e.1.isInvalid = true) ∧
    e.2.length ≤ 1

/-- A form without decoration: no field carries `is-valid` or `is-invalid`, and there is no
`invalid-feedback` element. -/
def Undecorated (d : Dom) : Prop :=
  ∀ g ∈ d, g.lead = [] ∧
    ∀ e ∈ g.fields, e.1.isValid = false ∧ e.1.isInvalid = false ∧ e.2 = []

/-- No two fields share a parent element. -/
def OwnParents (d : Dom) : Prop := ∀ g ∈ d, g.fields.length ≤ 1

/-- The DOM states reached from `d₀` by calls of `validateField` on its fields. -/
inductive Reachable (d₀ : Dom) : Dom → Prop where
  | start : Reachable d₀ d₀
  | step {d d₁ : Dom} (r : Ref) (b : Bool) :
      Reachable d₀ d → validateField d r = some (d₁, b) → Reachable d₀ d₁

/-- A decimal digit, `0` to `9`. -/
def isDecimalDigit (c : Char) : Bool := 0x30 ≤ c.toNat && c.toNat ≤ 0x39

/-- A hexadecimal digit: `0` to `9`, `A` to `F`, `a` to `f`. -/
def isHexDigit (c : Char) : Bool :=
  isDecimalDigit c || (0x41 ≤ c.toNat && c.toNat ≤ 0x46) || (0x61 ≤ c.toNat && c.toNat ≤ 0x66)

/-- The text starts with a positive integer as `parseInt` reads one: after white space and an
optional `+` come either decimal digits, one of them not `0`, or `0x` or `0X` and then
hexadecimal digits, one of them not `0`. Nothing is asked of the text after them. -/
def StartsWithPositiveInteger (m : String) : Prop :=
  ∃ ws sign digits rest : List Char, m.data = ws ++ (sign ++ (digits ++ rest)) ∧
    (∀ c ∈ ws, isWhiteSpace c = true) ∧ (sign = [] ∨ sign = ['+']) ∧
    (((∀ c ∈ digits, isDecimalDigit c = true) ∧ ∃ c ∈ digits, c ≠ '0') ∨
      ∃ x hs, digits = '0' :: x :: hs ∧ (x = 'x' ∨ x = 'X') ∧
        (∀ c ∈ hs, isHexDigit c = true) ∧ ∃ c ∈ hs, c ≠ '0')

/-- The text is the decimal text of an integer greater than 0: decimal digits only, at least
one of them not `0`. -/
def IsPositiveDecimalText (m : String) : Prop :=
  (∀ c ∈ m.data, isDecimalDigit c = true) ∧ ∃ c ∈ m.data, c ≠ '0'

/-! ## Lemmas on the DOM operations -/

theorem getElem?_updateAt {α : Type} (f : α → α) (l : List α) (i j : Nat) :
    (updateAt f l i)[j]? = if i = j then l[j]?.map f else l[j]? := by
  induction l generalizing i j with
  | nil => simp [updateAt]
  | cons x xs ih =>
    cases i with
    | zero => cases j <;> simp [updateAt]
    | succ i => cases j <;> simp [updateAt, ih]

theorem length_updateAt {α : Type} (f : α → α) (l : List α) (i : Nat) :
    (updateAt f l i).length = l.length := by
  induction l generalizing i with
  | nil => simp [updateAt]
  | cons x xs ih => cases i <;> simp [updateAt, ih]

theorem entryAt_updateEntry (f : Field × List String → Field × List String) (d : Dom)
    (r q : Ref) :
    entryAt (updateEntry f d r) q = if r = q then (entryAt d q).map f else entryAt d q := by
  obtain ⟨g, i⟩ := r
  obtain ⟨h, j⟩ := q
  simp only [entryAt, updateEntry, getElem?_updateAt, Prod.mk.injEq]
  by_cases hg : g = h
  · subst hg
    cases hd : d[g]? with
    | none => simp
    | some grp =>
      by_cases hi : i = j <;> simp [hi, getElem?_updateAt]
  · simp [hg]

theorem entryAt_removeSiblingFeedback (d : Dom) (r q : Ref) :
    entryAt (removeSiblingFeedback d r) q =
      if r.1 = q.1 then (entryAt d q).map (fun e => (e.1, [])) else entryAt d q := by
  obtain ⟨g, i⟩ := r
  obtain ⟨h, j⟩ := q
  simp only [entryAt, removeSiblingFeedback, getElem?_updateAt]
  by_cases hg : g = h
  · subst hg
    cases hd : d[g]? with
    | none => simp
    | some grp => simp
  · simp [hg]

theorem validateField_eq (d : Dom) (r : Ref) :
    validateField d r = (fieldAt d r).map fun f =>
      match verdict f with
      | some m =>
        (showFieldError (removeSiblingFeedback (removeValidityClasses d r) r) r m, false)
      | none => (addValidClass (removeSiblingFeedback (removeValidityClasses d r) r) r, true) := by
  unfold validateField verdict
  cases fieldAt d r with
  | none => rfl
  | some f =>
    simp only [Option.map_some']
    split_ifs <;> rfl

theorem validateField_isSome (d : Dom) (r : Ref) (f : Field) (h : fieldAt d r = some f) :
    validateField d r = some
      ((match verdict f with
        | some m => showFieldError (removeSiblingFeedback (removeValidityClasses d r) r) r m
        | none => addValidClass (removeSiblingFeedback (removeValidityClasses d r) r) r),
       (verdict f).isNone) := by
  rw [validateField_eq, h]
  cases hv : verdict f <;> simp [hv]

theorem entryAt_validateField (d d₁ : Dom) (r : Ref) (b : Bool)
    (h : validateField d r = some (d₁, b)) (q : Ref) :
    entryAt d₁ q =
      if r = q then (entryAt d q).map decorate
      else if r.1 = q.1 then (entryAt d q).map (fun e => (e.1, []))
      else entryAt d q := by
  cases hf : fieldAt d r with
  | none => rw [validateField_eq, hf] at h; simp at h
  | some f =>
    rw [validateField_isSome d r f hf] at h
    simp only [Option.some.injEq, Prod.mk.injEq] at h
    obtain ⟨h, -⟩ := h
    subst h
    have hfe : ∀ e, entryAt d r = some e → e.1 = f := by
      intro e he
      simpa [fieldAt, he] using hf
    cases hv : verdict f with
    | some m =>
      simp only [showFieldError, removeValidityClasses, entryAt_updateEntry,
        entryAt_removeSiblingFeedback]
      by_cases hq : r = q
      · subst hq
        cases he : entryAt d r with
        | none => simp
        | some e => simp [decorate, hfe e he, hv]
      · by_cases hg : r.1 = q.1 <;> simp [hq, hg]
    | none =>
      simp only [addValidClass, removeValidityClasses, entryAt_updateEntry,
        entryAt_removeSiblingFeedback]
      by_cases hq : r = q
      · subst hq
        cases he : entryAt d r with
        | none => simp
        | some e => simp [decorate, hfe e he, hv]
      · by_cases hg : r.1 = q.1 <;> simp [hq, hg]

theorem truthyStr_eq_true_iff (s : String) : truthyStr s = true ↔ s ≠ "" := by
  obtain ⟨l⟩ := s
  cases l <;> simp [truthyStr, String.ext_iff]


/-- What `validateField` leaves at the field it was called on. -/
theorem validateField_at_self (d : Dom) (r : Ref) (f : Field) (hf : fieldAt d r = some f) :
    ∃ d₁, validateField d r = some (d₁, (verdict f).isNone) ∧
      fieldAt d₁ r = some (decorate (f, [])).1 ∧ messagesAt d₁ r = some (decorate (f, [])).2 := by
  refine ⟨_, validateField_isSome d r f hf, ?_⟩
  have h := entryAt_validateField d _ r _ (validateField_isSome d r f hf) r
  simp only [if_true] at h
  cases he : entryAt d r with
  | none => simp [fieldAt, he] at hf
  | some e =>
    have h1 : e.1 = f := by simpa [fieldAt, he] using hf
    simp [fieldAt, messagesAt, h, he, decorate, h1]

/-! ## Claims on `validateField` -/

theorem truthyStr_of_jsLength_pos (s : String) (h : 0 < jsLength s) : truthyStr s = true := by
  obtain ⟨l⟩ := s
  cases l with
  | nil => simp [jsLength] at h
  | cons c cs => simp [truthyStr]

/-- C4, amended: for every field named `password` whose type is not `email`, with `t` its value
after trimming: when `t` is non-empty and shorter than 8 (in UTF-16 code units) `validateField`
returns false and the message after the field is "Password must be at least 8 characters long";
when `t` has length 8 or more `validateField` returns true and no message follows the field. -/
theorem validateField_password (d : Dom) (r : Ref) (f : Field)
    (hf : fieldAt d r = some f) (hname : f.name = some "password")
    (htype : f.type ≠ some "email") :
    (trim f.value ≠ "" → jsLength (trim f.value) < 8 →
      ∃ d₁, validateField d r = some (d₁, false) ∧
        messagesAt d₁ r = some ["Password must be at least 8 characters long"]) ∧
    (8 ≤ jsLength (trim f.value) →
      ∃ d₁, validateField d r = some (d₁, true) ∧ messagesAt d₁ r = some []) := by
  obtain ⟨d₁, h1, -, h3⟩ := validateField_at_self d r f hf
  constructor
  · intro hne hlt
    have ht : truthyStr (trim f.value) = true := (truthyStr_eq_true_iff _).2 hne
    have hv : verdict f = some "Password must be at least 8 characters long" := by
      simp [verdict, hname, htype, ht, hlt]
    exact ⟨d₁, by simpa [hv] using h1, by simpa [decorate, hv] using h3⟩
  · intro hge
    have ht : truthyStr (trim f.value) = true := truthyStr_of_jsLength_pos _ (by omega)
    have hv : verdict f = none := by
      simp [verdict, hname, htype, ht]
      omega
    exact ⟨d₁, by simpa [hv] using h1, by simpa [decorate, hv] using h3⟩

theorem validateField_password_witness :
    (∃ d₁, validateField
        [⟨[], [(⟨true, some "password", some "password", " abcdefg ", false, false⟩, [])]⟩]
        (0, 0) = some (d₁, false) ∧
      messagesAt d₁ (0, 0) = some ["Password must be at least 8 characters long"]) :=
  (validateField_password
    [⟨[], [(⟨true, some "password", some "password", " abcdefg ", false, false⟩, [])]⟩] (0, 0)
    ⟨true, some "password", some "password", " abcdefg ", false, false⟩
    (by decide) (by decide) (by decide)).1 (by decide) (by decide)

/-- C4 as stated fails: the value `"abcdefg "` of a field named `password` has 8 characters, and
`validateField` returns false on it, with the password message. -/
theorem validateField_password_counterexample :
    jsLength "abcdefg " = 8 ∧
    validateField
      [⟨[], [(⟨false, some "password", some "password", "abcdefg ", false, false⟩, [])]⟩] (0, 0)
      = some ([⟨[], [(⟨false, some "password", some "password", "abcdefg ", false, true⟩,
          ["Password must be at least 8 characters long"])]⟩], false) := by
  decide

/-- C5, amended: for every field named `username` whose type is not `email`, with `t` its value
after trimming: when `t` is non-empty and shorter than 3 (in UTF-16 code units) `validateField`
returns false and the message after the field is "Username must be at least 3 characters long";
when `t` has length 3 or more `validateField` returns true and no message follows the field. -/
theorem validateField_username (d : Dom) (r : Ref) (f : Field)
    (hf : fieldAt d r = some f) (hname : f.name = some "username")
    (htype : f.type ≠ some "email") :
    (trim f.value ≠ "" → jsLength (trim f.value) < 3 →
      ∃ d₁, validateField d r = some (d₁, false) ∧
        messagesAt d₁ r = some ["Username must be at least 3 characters long"]) ∧
    (3 ≤ jsLength (trim f.value) →
      ∃ d₁, validateField d r = some (d₁, true) ∧ messagesAt d₁ r = some []) := by
  obtain ⟨d₁, h1, -, h3⟩ := validateField_at_self d r f hf
  constructor
  · intro hne hlt
    have ht : truthyStr (trim f.value) = true := (truthyStr_eq_true_iff _).2 hne
    have hv : verdict f = some "Username must be at least 3 characters long" := by
      simp [verdict, hname, htype, ht, hlt]
    exact ⟨d₁, by simpa [hv] using h1, by simpa [decorate, hv] using h3⟩
  · intro hge
    have ht : truthyStr (trim f.value) = true := truthyStr_of_jsLength_pos _ (by omega)
    have hv : verdict f = none := by
      simp [verdict, hname, htype, ht]
      omega
    exact ⟨d₁, by simpa [hv] using h1, by simpa [decorate, hv] using h3⟩

theorem validateField_username_witness :
    (∃ d₁, validateField
        [⟨[], [(⟨false, none, some "username", "abc ", false, false⟩, [])]⟩]
        (0, 0) = some (d₁, true) ∧ messagesAt d₁ (0, 0) = some []) :=
  (validateField_username
    [⟨[], [(⟨false, none, some "username", "abc ", false, false⟩, [])]⟩] (0, 0)
    ⟨false, none, some "username", "abc ", false, false⟩
    (by decide) (by decide) (by decide)).2 (by decide)

/-- C5 as stated fails: the value `"ab "` of a field named `username` has 3 characters, and
`validateField` returns false on it, with the username message. -/
theorem validateField_username_counterexample :
    jsLength "ab " = 3 ∧
    validateField
      [⟨[], [(⟨false, some "text", some "username", "ab ", false, false⟩, [])]⟩] (0, 0)
      = some ([⟨[], [(⟨false, some "text", some "username", "ab ", false, true⟩,
          ["Username must be at least 3 characters long"])]⟩], false) := by
  decide

/-! ## The regular expression of the e-mail rule -/

theorem Regex.nullable_iff (r : Regex) : r.nullable = true ↔ [] ∈ r.lang := by
  induction r with
  | never => simp [Regex.nullable, Regex.lang]
  | empty => simp [Regex.nullable, Regex.lang]
  | cls p =>
    simp only [Regex.nullable, Regex.lang, Set.mem_setOf_eq]
    constructor
    · intro h; exact absurd h (by decide)
    · rintro ⟨c, h, -⟩; exact absurd h (by simp)
  | alt a b iha ihb => simp [Regex.nullable, Regex.lang, iha, ihb, Language.mem_add]
  | seq a b iha ihb =>
    simp [Regex.nullable, Regex.lang, iha, ihb, Language.mem_mul]
  | plus a iha =>
    simp only [Regex.nullable, Regex.lang, iha, Language.mem_mul, List.append_eq_nil]
    constructor
    · intro h
      exact ⟨[], h, [], Language.nil_mem_kstar _, rfl, rfl⟩
    · rintro ⟨u, hu, v, -, rfl, -⟩
      exact hu

theorem kstar_cons {L : Language Char} {c : Char} {w : List Char}
    (h : c :: w ∈ KStar.kstar L) :
    ∃ u v, c :: u ∈ L ∧ v ∈ KStar.kstar L ∧ w = u ++ v := by
  rw [Language.mem_kstar_iff_exists_nonempty] at h
  obtain ⟨S, hS, hall⟩ := h
  cases S with
  | nil => simp at hS
  | cons y S =>
    obtain ⟨hy, hne⟩ := hall y (List.mem_cons_self _ _)
    cases y with
    | nil => exact absurd rfl hne
    | cons c' u =>
      simp only [List.flatten_cons, List.cons_append, List.cons.injEq] at hS
      obtain ⟨rfl, rfl⟩ := hS
      refine ⟨u, S.flatten, hy, ?_, rfl⟩
      exact Language.join_mem_kstar fun z hz => (hall z (List.mem_cons_of_mem _ hz)).1

theorem Regex.deriv_iff (r : Regex) (c : Char) (w : List Char) :
    w ∈ (r.deriv c).lang ↔ c :: w ∈ r.lang := by
  induction r generalizing w with
  | never => simp [Regex.deriv, Regex.lang]
  | empty => simp [Regex.deriv, Regex.lang]
  | cls p =>
    by_cases hp : p c = true
    · simp only [Regex.deriv, Regex.lang, hp, if_true, Language.mem_one, Set.mem_setOf_eq]
      constructor
      · rintro rfl; exact ⟨c, rfl, hp⟩
      · rintro ⟨c', h, -⟩
        simp only [List.cons.injEq] at h
        exact h.2
    · simp only [Regex.deriv, Regex.lang, hp, Set.mem_setOf_eq]
      constructor
      · intro h; exact absurd h (Language.not_mem_zero _)
      · rintro ⟨c', h, hp'⟩
        simp only [List.cons.injEq] at h
        rw [← h.1] at hp'
        exact absurd hp' hp
  | alt a b iha ihb => simp [Regex.deriv, Regex.lang, Language.mem_add, iha, ihb]
  | seq a b iha ihb =>
    have key : c :: w ∈ a.lang * b.lang ↔
        (∃ u v, c :: u ∈ a.lang ∧ v ∈ b.lang ∧ w = u ++ v) ∨ ([] ∈ a.lang ∧ c :: w ∈ b.lang) := by
      rw [Language.mem_mul]
      constructor
      · rintro ⟨u, hu, v, hv, huv⟩
        cases u with
        | nil => right; simp at huv; subst huv; exact ⟨hu, hv⟩
        | cons c' u =>
          simp at huv
          obtain ⟨rfl, rfl⟩ := huv
          exact Or.inl ⟨u, v, hu, hv, rfl⟩
      · rintro (⟨u, v, hu, hv, rfl⟩ | ⟨h1, h2⟩)
        · exact ⟨c :: u, hu, v, hv, rfl⟩
        · exact ⟨[], h1, c :: w, h2, rfl⟩
    have key2 : w ∈ (a.deriv c).lang * b.lang ↔
        ∃ u v, c :: u ∈ a.lang ∧ v ∈ b.lang ∧ w = u ++ v := by
      rw [Language.mem_mul]
      constructor
      · rintro ⟨u, hu, v, hv, rfl⟩
        exact ⟨u, v, (iha u).1 hu, hv, rfl⟩
      · rintro ⟨u, v, hu, hv, rfl⟩
        exact ⟨u, (iha u).2 hu, v, hv, rfl⟩
    by_cases hn : a.nullable = true
    · simp only [Regex.deriv, hn, if_true, Regex.lang, Language.mem_add, key, key2, ihb]
      simp [← Regex.nullable_iff, hn]
    · simp only [Regex.deriv, hn, Regex.lang, key, key2]
      simp [← Regex.nullable_iff, hn]
  | plus a iha =>
    simp only [Regex.deriv, Regex.lang]
    rw [Language.one_add_self_mul_kstar_eq_kstar, Language.mem_mul, Language.mem_mul]
    constructor
    · rintro ⟨u, hu, v, hv, rfl⟩
      exact ⟨c :: u, (iha u).1 hu, v, hv, rfl⟩
    · rintro ⟨u, hu, v, hv, huv⟩
      cases u with
      | nil =>
        simp at huv
        subst huv
        obtain ⟨u, v, h1, h2, rfl⟩ := kstar_cons hv
        exact ⟨u, (iha u).2 h1, v, h2, rfl⟩
      | cons c' u =>
        simp at huv
        obtain ⟨rfl, rfl⟩ := huv
        exact ⟨u, (iha u).2 hu, v, hv, rfl⟩

theorem Regex.matchesAll_iff (r : Regex) (w : List Char) :
    r.matchesAll w = true ↔ w ∈ r.lang := by
  induction w generalizing r with
  | nil => simp [Regex.matchesAll, Regex.nullable_iff]
  | cons c w ih => simp [Regex.matchesAll, ih, Regex.deriv_iff]

theorem mem_kstar_cls (p : Char → Bool) (w : List Char) :
    w ∈ KStar.kstar (Regex.cls p).lang ↔ ∀ x ∈ w, p x = true := by
  rw [Language.mem_kstar]
  constructor
  · rintro ⟨S, rfl, hS⟩ x hx
    obtain ⟨y, hy, hxy⟩ := List.mem_flatten.1 hx
    obtain ⟨c, rfl, hc⟩ := hS y hy
    simp only [List.mem_singleton] at hxy
    exact hxy ▸ hc
  · intro h
    refine ⟨w.map fun x => [x], ?_, ?_⟩
    · clear h
      induction w with
      | nil => rfl
      | cons x xs ih => simp [← ih]
    · intro y hy
      obtain ⟨x, hx, rfl⟩ := List.mem_map.1 hy
      exact ⟨x, rfl, h x hx⟩

theorem mem_plus_cls (p : Char → Bool) (w : List Char) :
    w ∈ (Regex.plus (.cls p)).lang ↔ w ≠ [] ∧ ∀ x ∈ w, p x = true := by
  simp only [Regex.lang]
  rw [Language.mem_mul]
  constructor
  · rintro ⟨u, ⟨c, rfl, hc⟩, v, hv, rfl⟩
    refine ⟨by simp, ?_⟩
    intro x hx
    simp only [List.singleton_append, List.mem_cons] at hx
    rcases hx with rfl | hx
    · exact hc
    · exact (mem_kstar_cls p v).1 hv x hx
  · rintro ⟨hne, h⟩
    cases w with
    | nil => exact absurd rfl hne
    | cons c v =>
      refine ⟨[c], ⟨c, rfl, h c (List.mem_cons_self _ _)⟩, v, ?_, rfl⟩
      exact (mem_kstar_cls p v).2 fun x hx => h x (List.mem_cons_of_mem _ hx)

theorem mem_cls_eq (ch : Char) (w : List Char) :
    w ∈ (Regex.cls (· == ch)).lang ↔ w = [ch] := by
  simp only [Regex.lang, Set.mem_setOf_eq, beq_iff_eq]
  constructor
  · rintro ⟨c, rfl, rfl⟩; rfl
  · rintro rfl; exact ⟨ch, rfl, rfl⟩

theorem Regex.lang_seq (a b : Regex) : (Regex.seq a b).lang = a.lang * b.lang := rfl

theorem notSpaceNorAt_iff (x : Char) :
    notSpaceNorAt x = true ↔ isWhiteSpace x = false ∧ x ≠ '@' := by
  simp [notSpaceNorAt]

/-- The expression of `validateField` accepts exactly the strings of the shape the
specification describes. -/
theorem emailRegex_test_iff (s : String) : emailRegex.test s = true ↔ EmailShape s := by
  rw [Regex.test, Regex.matchesAll_iff]
  simp only [emailRegex, Regex.lang_seq, Language.mem_mul, mem_plus_cls, mem_cls_eq,
    notSpaceNorAt_iff]
  constructor
  · rintro ⟨a, ⟨ha, ha'⟩, _, ⟨_, rfl, _, ⟨b, ⟨hb, hb'⟩, _, ⟨_, rfl, c, ⟨hc, hc'⟩, rfl⟩, rfl⟩,
      rfl⟩, h⟩
    exact ⟨a, b, c, by simpa using h.symm, ha, hb, hc, ha', hb', hc'⟩
  · rintro ⟨a, b, c, h, ha, hb, hc, ha', hb', hc'⟩
    exact ⟨a, ⟨ha, ha'⟩, _, ⟨_, rfl, _, ⟨b, ⟨hb, hb'⟩, _, ⟨_, rfl, c, ⟨hc, hc'⟩, rfl⟩, rfl⟩,
      rfl⟩, by simpa using h.symm⟩


/-- C3, amended: for every field of type `email` whose name is neither `password` nor
`username`, with `t` its value after trimming and `t` non-empty: when `t` does not have the
shape `local@domain.tld`, `validateField` returns false and the message after the field is
"Please enter a valid email address"; when `t` has that shape, `validateField` returns true. -/
theorem validateField_email (d : Dom) (r : Ref) (f : Field)
    (hf : fieldAt d r = some f) (htype : f.type = some "email")
    (hpw : f.name ≠ some "password") (hun : f.name ≠ some "username")
    (hne : trim f.value ≠ "") :
    (¬ EmailShape (trim f.value) →
      ∃ d₁, validateField d r = some (d₁, false) ∧
        messagesAt d₁ r = some ["Please enter a valid email address"]) ∧
    (EmailShape (trim f.value) →
      ∃ d₁, validateField d r = some (d₁, true) ∧ messagesAt d₁ r = some []) := by
  obtain ⟨d₁, h1, -, h3⟩ := validateField_at_self d r f hf
  have ht : truthyStr (trim f.value) = true := (truthyStr_eq_true_iff _).2 hne
  constructor
  · intro hs
    have hre : emailRegex.test (trim f.value) = false := by
      rw [← emailRegex_test_iff] at hs
      simpa using hs
    have hv : verdict f = some "Please enter a valid email address" := by
      simp [verdict, htype, ht, hre]
    exact ⟨d₁, by simpa [hv] using h1, by simpa [decorate, hv] using h3⟩
  · intro hs
    have hre : emailRegex.test (trim f.value) = true := (emailRegex_test_iff _).2 hs
    have hv : verdict f = none := by
      simp [verdict, htype, ht, hre, hpw, hun]
    exact ⟨d₁, by simpa [hv] using h1, by simpa [decorate, hv] using h3⟩

theorem validateField_email_witness :
    ∃ d₁, validateField
        [⟨[], [(⟨true, some "email", some "email", " foo@bar.baz ", false, false⟩, [])]⟩]
        (0, 0) = some (d₁, true) ∧ messagesAt d₁ (0, 0) = some [] :=
  (validateField_email
    [⟨[], [(⟨true, some "email", some "email", " foo@bar.baz ", false, false⟩, [])]⟩] (0, 0)
    ⟨true, some "email", some "email", " foo@bar.baz ", false, false⟩
    (by decide) (by decide) (by decide) (by decide) (by decide)).2
    ⟨"foo".data, "bar".data, "baz".data, by decide, by decide, by decide, by decide, by decide,
      by decide, by decide⟩

/-- C3 as stated fails: the empty value does not have the shape `local@domain.tld`, and
`validateField` returns true on a field of type `email` that is not required and holds it,
leaving no message. -/
theorem validateField_email_counterexample :
    ¬ EmailShape "" ∧
    validateField [⟨[], [(⟨false, some "email", some "email", "", false, false⟩, [])]⟩] (0, 0)
      = some ([⟨[], [(⟨false, some "email", some "email", "", true, false⟩, [])]⟩], true) := by
  constructor
  · rintro ⟨a, b, c, h, -⟩
    have h2 := congrArg List.length h
    simp at h2
    omega
  · decide

/-! ## The loop of `validateForm` -/

/-- C10 fails on the code where two fields share a parent. Field 0 (required, empty) and
field 1 (optional, filled) lie under one parent of an undecorated form. `validateField` on
field 0 marks it `is-invalid` and puts its message after it; `validateField` on field 1 then
removes that message with the other feedback elements of the parent, and leaves `is-invalid`
on field 0: field 0 carries `is-invalid` and no message is present. -/
theorem decoration_out_of_step_shared_parent :
    validateField
      [⟨[], [(⟨true, some "text", some "city", "", false, false⟩, []),
             (⟨false, some "text", some "street", "x", false, false⟩, [])]⟩] (0, 0)
      = some ([⟨[], [(⟨true, some "text", some "city", "", false, true⟩,
                        ["This field is required"]),
                     (⟨false, some "text", some "street", "x", false, false⟩, [])]⟩], false) ∧
    validateField
      [⟨[], [(⟨true, some "text", some "city", "", false, true⟩, ["This field is required"]),
             (⟨false, some "text", some "street", "x", false, false⟩, [])]⟩] (0, 1)
      = some ([⟨[], [(⟨true, some "text", some "city", "", false, true⟩, []),
                     (⟨false, some "text", some "street", "x", true, false⟩, [])]⟩], true) ∧
    ¬ Synced (⟨true, some "text", some "city", "", false, true⟩, []) := by
  refine ⟨by decide, by decide, ?_⟩
  simp [Synced]

theorem synced_decorate (e : Field × List String) : Synced (decorate e) := by
  unfold decorate
  cases verdict e.1 <;> simp [Synced]

theorem synced_and_rank_of_ownParents (d₀ d : Dom) (hown : OwnParents d₀) (hun : Undecorated d₀)
    (hreach : Reachable d₀ d) :
    ∀ q e, entryAt d q = some e → Synced e ∧ q.2 = 0 := by
  induction hreach with
  | start =>
    intro q e he
    simp only [entryAt] at he
    cases hg : d₀[q.1]? with
    | none => simp [hg] at he
    | some g =>
      simp only [hg] at he
      have hgm : g ∈ d₀ := List.getElem?_mem hg
      have hem : e ∈ g.fields := List.getElem?_mem he
      obtain ⟨h1, h2, h3⟩ := (hun g hgm).2 e hem
      refine ⟨by simp [Synced, h1, h2, h3], ?_⟩
      have hlen := hown g hgm
      have hlt : q.2 < g.fields.length := (List.getElem?_eq_some_iff.1 he).1
      omega
  | @step dA dB r b _ hstep ih =>
    intro q e he
    rw [entryAt_validateField _ _ r b hstep q] at he
    by_cases hq : r = q
    · simp only [hq, if_true] at he
      cases h0 : entryAt dA q with
      | none => simp [h0] at he
      | some e₀ =>
        simp only [h0, Option.map_some', Option.some.injEq] at he
        exact ⟨he ▸ synced_decorate e₀, (ih q e₀ h0).2⟩
    · by_cases hg : r.1 = q.1
      · simp only [hq, hg, if_true, if_false] at he
        cases h0 : entryAt dA q with
        | none => simp [h0] at he
        | some e₀ =>
          exfalso
          have hq0 := (ih q e₀ h0).2
          obtain ⟨f, hf⟩ : ∃ f, fieldAt dA r = some f := by
            cases hfr : fieldAt dA r with
            | none => rw [validateField_eq, hfr] at hstep; simp at hstep
            | some f => exact ⟨f, rfl⟩
          cases h1 : entryAt dA r with
          | none => simp [fieldAt, h1] at hf
          | some e₁ =>
            have hr0 := (ih r e₁ h1).2
            exact hq (Prod.ext hg (hr0.trans hq0.symm))
      · simp only [hq, hg, if_false] at he
        exact ih q e he


/-- Where no two fields share a parent, the decoration stays in step: in every state reached
from an undecorated form by calls of `validateField`, every field carries `is-invalid` exactly
when a message follows it, never both classes, and never more than one message. -/
theorem synced_of_ownParents (d₀ d : Dom) (hown : OwnParents d₀) (hun : Undecorated d₀)
    (hreach : Reachable d₀ d) (q : Ref) (e : Field × List String) (he : entryAt d q = some e) :
    Synced e :=
  (synced_and_rank_of_ownParents d₀ d hown hun hreach q e he).1

/-! ## `parseInt` -/

theorem readSign_cons (c : Char) (t : List Char) :
    readSign (c :: t) =
      if c = '-' then (-1, t) else if c = '+' then (1, t) else (1, c :: t) := by
  unfold readSign
  split
  · rename_i h
    simp only [List.cons.injEq] at h
    simp [h.1, h.2]
  · rename_i h
    simp only [List.cons.injEq] at h
    rw [h.1, h.2]
    have h3 : ('+' : Char) ≠ '-' := by decide
    simp [h3]
  · rename_i h1 h2
    split_ifs with h3 h4
    · subst h3; exact absurd rfl (h1 t)
    · subst h4; exact absurd rfl (h2 t)
    · rfl

theorem readRadix_other (S : List Char) (h1 : ∀ t, S ≠ '0' :: 'x' :: t)
    (h2 : ∀ t, S ≠ '0' :: 'X' :: t) : readRadix S = (10, S) := by
  unfold readRadix
  split
  · exact absurd rfl (h1 _)
  · exact absurd rfl (h2 _)
  · rfl

theorem readRadix_cases (S : List Char) :
    (∃ x t, (x = 'x' ∨ x = 'X') ∧ S = '0' :: x :: t ∧ readRadix S = (16, t)) ∨
      ((∀ t, S ≠ '0' :: 'x' :: t) ∧ (∀ t, S ≠ '0' :: 'X' :: t) ∧ readRadix S = (10, S)) := by
  by_cases h1 : ∃ t, S = '0' :: 'x' :: t
  · obtain ⟨t, rfl⟩ := h1
    exact Or.inl ⟨'x', t, Or.inl rfl, rfl, rfl⟩
  · by_cases h2 : ∃ t, S = '0' :: 'X' :: t
    · obtain ⟨t, rfl⟩ := h2
      exact Or.inl ⟨'X', t, Or.inr rfl, rfl, rfl⟩
    · have h1' : ∀ t, S ≠ '0' :: 'x' :: t := fun t h => h1 ⟨t, h⟩
      have h2' : ∀ t, S ≠ '0' :: 'X' :: t := fun t h => h2 ⟨t, h⟩
      exact Or.inr ⟨h1', h2', readRadix_other S h1' h2'⟩

theorem char_eq_of_toNat (c : Char) (n : Nat) (h : c.toNat = n) : c = Char.ofNat n := by
  rw [← h, Char.ofNat_toNat]

theorem digitValue_isSome_ten (c : Char) :
    (digitValue 10 c).isSome = isDecimalDigit c := by
  unfold digitValue isDecimalDigit
  simp only []
  split_ifs <;> simp_all

theorem digitValue_isSome_sixteen (c : Char) :
    (digitValue 16 c).isSome = isHexDigit c := by
  unfold digitValue isHexDigit isDecimalDigit
  simp only []
  split_ifs <;> simp_all

theorem digitValue_eq_zero (R : Nat) (c : Char) (h : digitValue R c = some 0) : c = '0' := by
  unfold digitValue at h
  simp only [] at h
  split_ifs at h with h1 h2 h3
  · simp only [Option.some.injEq] at h
    simp only [Bool.and_eq_true, decide_eq_true_eq] at h1
    exact char_eq_of_toNat c 48 (by omega)
  · simp at h
  · simp at h

theorem digitValue_zero (R : Nat) : digitValue R '0' = some 0 := by
  have h : ('0' : Char).toNat = 48 := by decide
  simp [digitValue, h]

theorem leadingDigits_pos (R : Nat) (hR : 0 < R) (cs : List Char) (acc : Option Nat) :
    (∃ n, leadingDigits R cs acc = some n ∧ 0 < n) ↔
      (∃ a, acc = some a ∧ 0 < a) ∨
        ∃ c ∈ cs.takeWhile (fun c => (digitValue R c).isSome), c ≠ '0' := by
  induction cs generalizing acc with
  | nil => simp [leadingDigits]
  | cons c cs ih =>
    cases hv : digitValue R c with
    | none => simp [leadingDigits, hv, List.takeWhile_cons]
    | some v =>
      simp only [leadingDigits, hv, ih, List.takeWhile_cons, Option.isSome_some, if_true,
        List.mem_cons, Option.some.injEq, exists_eq_left', exists_eq_or_imp]
      have hc : c ≠ '0' ↔ 0 < v := by
        constructor
        · intro hne
          rcases Nat.eq_zero_or_pos v with h0 | h0
          · exact absurd (digitValue_eq_zero R c (h0 ▸ hv)) hne
          · exact h0
        · rintro h0 rfl
          rw [digitValue_zero] at hv
          simp only [Option.some.injEq] at hv
          omega
      have hacc : 0 < acc.getD 0 * R + v ↔ (∃ a, acc = some a ∧ 0 < a) ∨ 0 < v := by
        cases acc with
        | none => simp
        | some a =>
          simp only [Option.getD_some, Option.some.injEq, exists_eq_left']
          constructor
          · intro h
            rcases Nat.eq_zero_or_pos a with h0 | h0
            · subst h0; right; simpa using h
            · exact Or.inl h0
          · rintro (h | h)
            · have := Nat.mul_pos h hR
              omega
            · omega
      rw [hacc, hc, or_assoc]

theorem readSign_fst (S : List Char) : (readSign S).1 = 1 ∨ (readSign S).1 = -1 := by
  cases S with
  | nil => left; rfl
  | cons c t =>
    rw [readSign_cons]
    split_ifs <;> simp

theorem readRadix_fst_pos (S : List Char) : 0 < (readRadix S).1 := by
  rcases readRadix_cases S with ⟨x, t, -, -, h⟩ | ⟨-, -, h⟩ <;> simp [h]

theorem gtZero_parseInt_iff (m : String) :
    gtZero (parseInt m) = true ↔
      (readSign (m.data.dropWhile isWhiteSpace)).1 = 1 ∧
        ∃ c ∈ (readRadix (readSign (m.data.dropWhile isWhiteSpace)).2).2.takeWhile
            (fun c => (digitValue
              (readRadix (readSign (m.data.dropWhile isWhiteSpace)).2).1 c).isSome),
          c ≠ '0' := by
  have hpos := leadingDigits_pos _ (readRadix_fst_pos
    (readSign (m.data.dropWhile isWhiteSpace)).2)
    (readRadix (readSign (m.data.dropWhile isWhiteSpace)).2).2 none
  simp only [false_and, exists_false, false_or, reduceCtorEq] at hpos
  rw [← hpos]
  unfold parseInt
  simp only []
  cases hl : leadingDigits (readRadix (readSign (m.data.dropWhile isWhiteSpace)).2).1
      (readRadix (readSign (m.data.dropWhile isWhiteSpace)).2).2 none with
  | none => simp [gtZero]
  | some n =>
    simp only [gtZero, decide_eq_true_eq, Option.some.injEq, exists_eq_left']
    rcases readSign_fst (m.data.dropWhile isWhiteSpace) with h | h
    · rw [h]; simp
    · rw [h]
      constructor
      · intro h0
        have : (0 : Int) ≤ n := Int.natCast_nonneg n
        omega
      · rintro ⟨h1, -⟩
        omega

theorem readSign_split (S : List Char) (h : (readSign S).1 = 1) :
    ∃ sign, (sign = [] ∨ sign = ['+']) ∧ S = sign ++ (readSign S).2 := by
  cases S with
  | nil => exact ⟨[], Or.inl rfl, rfl⟩
  | cons c t =>
    rw [readSign_cons] at h ⊢
    split_ifs at h ⊢ with h1 h2
    · simp at h
    · exact ⟨['+'], Or.inr rfl, by simp [h2]⟩
    · exact ⟨[], Or.inl rfl, rfl⟩

theorem mem_takeWhile_imp {p : Char → Bool} {l : List Char} {c : Char}
    (h : c ∈ l.takeWhile p) : p c = true := by
  induction l with
  | nil => simp at h
  | cons x xs ih =>
    rw [List.takeWhile_cons] at h
    split_ifs at h with hx
    · rcases List.mem_cons.1 h with rfl | h'
      · exact hx
      · exact ih h'
    · simp at h

theorem takeWhile_append_of_all {p : Char → Bool} (l t : List Char)
    (h : ∀ c ∈ l, p c = true) : (l ++ t).takeWhile p = l ++ t.takeWhile p := by
  induction l with
  | nil => rfl
  | cons x xs ih =>
    simp only [List.cons_append, List.takeWhile_cons, h x (List.mem_cons_self _ _), if_true]
    rw [ih fun c hc => h c (List.mem_cons_of_mem _ hc)]

theorem dropWhile_append_stop {p : Char → Bool} (l t : List Char) (x : Char)
    (h : ∀ c ∈ l, p c = true) (hx : p x = false) : (l ++ x :: t).dropWhile p = x :: t := by
  induction l with
  | nil => simp [List.dropWhile_cons, hx]
  | cons y ys ih =>
    simp only [List.cons_append, List.dropWhile_cons, h y (List.mem_cons_self _ _), if_true]
    exact ih fun c hc => h c (List.mem_cons_of_mem _ hc)

theorem isWhiteSpace_of_isDecimalDigit (c : Char) (h : isDecimalDigit c = true) :
    isWhiteSpace c = false := by
  simp only [isDecimalDigit, Bool.and_eq_true, decide_eq_true_eq] at h
  simp only [isWhiteSpace, Bool.or_eq_false_iff, beq_eq_false_iff_ne, ne_eq,
    Bool.and_eq_false_imp, decide_eq_true_eq, decide_eq_false_iff_not]
  omega

theorem readSign_of_digit (c : Char) (t : List Char) (h : isDecimalDigit c = true) :
    readSign (c :: t) = (1, c :: t) := by
  simp only [isDecimalDigit, Bool.and_eq_true, decide_eq_true_eq] at h
  have h1 : c ≠ '-' := by
    rintro rfl
    have : ('-' : Char).toNat = 45 := by decide
    omega
  have h2 : c ≠ '+' := by
    rintro rfl
    have : ('+' : Char).toNat = 43 := by decide
    omega
  simp [readSign_cons, h1, h2]

theorem not_digit_x (x : Char) (hx : x = 'x' ∨ x = 'X') : isDecimalDigit x = false := by
  rcases hx with rfl | rfl <;> decide

/-- The comparison `parseInt(m) > 0` holds exactly for the texts that start with a positive
integer as `parseInt` reads one. -/
theorem gtZero_parseInt_iff_starts (m : String) :
    gtZero (parseInt m) = true ↔ StartsWithPositiveInteger m := by
  rw [gtZero_parseInt_iff]
  constructor
  · rintro ⟨hs, c, hc, hc0⟩
    obtain ⟨sign, hsign, hS⟩ := readSign_split _ hs
    have hm : m.data = m.data.takeWhile isWhiteSpace ++ m.data.dropWhile isWhiteSpace :=
      (List.takeWhile_append_dropWhile _ _).symm
    rcases readRadix_cases (readSign (m.data.dropWhile isWhiteSpace)).2 with
      ⟨x, t, hx, hS1, hR⟩ | ⟨-, -, hR⟩
    · rw [hR] at hc
      simp only [] at hc
      refine ⟨m.data.takeWhile isWhiteSpace, sign,
        '0' :: x :: t.takeWhile (fun c => (digitValue 16 c).isSome),
        t.dropWhile (fun c => (digitValue 16 c).isSome), ?_, fun c h => mem_takeWhile_imp h,
        hsign, Or.inr ⟨x, _, rfl, hx, ?_, c, hc, hc0⟩⟩
      · rw [List.cons_append, List.cons_append, List.takeWhile_append_dropWhile, ← hS1, ← hS]
        exact hm
      · intro c' hc'
        rw [← digitValue_isSome_sixteen]
        exact mem_takeWhile_imp hc'
    · rw [hR] at hc
      simp only [] at hc
      refine ⟨m.data.takeWhile isWhiteSpace, sign,
        (readSign (m.data.dropWhile isWhiteSpace)).2.takeWhile
          (fun c => (digitValue 10 c).isSome),
        (readSign (m.data.dropWhile isWhiteSpace)).2.dropWhile
          (fun c => (digitValue 10 c).isSome), ?_, fun c h => mem_takeWhile_imp h,
        hsign, Or.inl ⟨?_, c, hc, hc0⟩⟩
      · rw [List.takeWhile_append_dropWhile, ← hS]
        exact hm
      · intro c' hc'
        rw [← digitValue_isSome_ten]
        exact mem_takeWhile_imp hc'
  · rintro ⟨ws, sign, digits, rest, hm, hws, hsign, hd⟩
    obtain ⟨d0, ds, hdig, hd0⟩ : ∃ d0 ds, digits = d0 :: ds ∧ isDecimalDigit d0 = true := by
      rcases hd with ⟨hall, c, hc, -⟩ | ⟨x, hs, rfl, -⟩
      · cases digits with
        | nil => simp at hc
        | cons d0 ds => exact ⟨d0, ds, rfl, hall d0 (List.mem_cons_self _ _)⟩
      · exact ⟨'0', x :: hs, rfl, by decide⟩
    have hsg : readSign (m.data.dropWhile isWhiteSpace) = (1, digits ++ rest) := by
      rw [hm, hdig]
      rcases hsign with rfl | rfl
      · rw [List.nil_append, List.cons_append, dropWhile_append_stop ws _ d0 hws
          (isWhiteSpace_of_isDecimalDigit d0 hd0), readSign_of_digit d0 _ hd0]
      · rw [List.singleton_append, dropWhile_append_stop ws _ '+' hws (by decide)]
        rfl
    rw [hsg]
    refine ⟨rfl, ?_⟩
    simp only []
    rcases hd with ⟨hall, c, hc, hc0⟩ | ⟨x, hs, rfl, hx, hall, c, hc, hc0⟩
    · have hR : readRadix (digits ++ rest) = (10, digits ++ rest) := by
        have key : ∀ x t, (x = 'x' ∨ x = 'X') → digits ++ rest ≠ '0' :: x :: t := by
          intro x t hx heq
          cases digits with
          | nil => simp at hc
          | cons a as =>
            cases as with
            | nil =>
              simp only [List.singleton_append, List.cons.injEq] at heq
              simp only [List.mem_singleton] at hc
              exact hc0 (hc.trans heq.1)
            | cons b bs =>
              simp only [List.cons_append, List.cons.injEq] at heq
              have hb := hall b (by simp)
              rw [heq.2.1, not_digit_x x hx] at hb
              exact absurd hb (by decide)
        exact readRadix_other _ (fun t => key 'x' t (Or.inl rfl))
          (fun t => key 'X' t (Or.inr rfl))
      rw [hR]
      refine ⟨c, ?_, hc0⟩
      rw [takeWhile_append_of_all digits rest fun c hc => by
        rw [digitValue_isSome_ten]; exact hall c hc]
      exact List.mem_append_left _ hc
    · have hR : readRadix ('0' :: x :: hs ++ rest) = (16, hs ++ rest) := by
        rcases hx with rfl | rfl <;> rfl
      rw [hR]
      refine ⟨c, ?_, hc0⟩
      rw [takeWhile_append_of_all hs rest fun c hc => by
        rw [digitValue_isSome_sixteen]; exact hall c hc]
      exact List.mem_append_left _ hc


/-! ## Claims on the admin actions -/

/-- C7: for every user id and every outcome of the password prompt, `resetPassword` issues
exactly one request and no warning if and only if the prompt gave a non-empty string of length
at least 8, and the request is then the POST to `/users/{id}/reset-password` with that string
as `newPassword`; it issues no request and exactly one notification if and only if the prompt
gave a non-empty string shorter than 8, and the notification is then the warning "Password
must be at least 8 characters long"; when the prompt was cancelled or gave the empty string
it issues no request and no notification. Lengths are counted as the script counts them, in
UTF-16 code units. -/
theorem resetPassword_contract (userId : String) (prompted : Option String) :
    ((((resetPassword userId prompted).filter Effect.isRequest).length = 1 ∧
        (resetPassword userId prompted).filter Effect.isAlert = []) ↔
      ∃ p, prompted = some p ∧ p ≠ "" ∧ 8 ≤ jsLength p) ∧
    (∀ p, prompted = some p → p ≠ "" → 8 ≤ jsLength p →
      resetPassword userId prompted =
        [.ajax "POST" (API_BASE_URL ++ "/users/" ++ userId ++ "/reset-password?newPassword="
          ++ encodeURIComponent p ++ "&resetBy=admin") .resetPassword]) ∧
    (((resetPassword userId prompted).filter Effect.isRequest = [] ∧
        ((resetPassword userId prompted).filter Effect.isAlert).length = 1) ↔
      ∃ p, prompted = some p ∧ p ≠ "" ∧ jsLength p < 8) ∧
    (∀ p, prompted = some p → p ≠ "" → jsLength p < 8 →
      resetPassword userId prompted =
        [.alert (.string "Password must be at least 8 characters long") "warning"]) ∧
    (prompted = none ∨ prompted = some "" → resetPassword userId prompted = []) := by
  cases prompted with
  | none => simp [resetPassword]
  | some p =>
    by_cases hp : p = ""
    · subst hp
      simp [resetPassword, truthyStr]
    · have ht : truthyStr p = true := (truthyStr_eq_true_iff p).2 hp
      by_cases hl : 8 ≤ jsLength p
      · have hl' : ¬ jsLength p < 8 := by omega
        simp [resetPassword, ht, hl, hl', hp, Effect.isRequest, Effect.isAlert]
      · have hl' : jsLength p < 8 := by omega
        simp [resetPassword, ht, hl, hl', hp, Effect.isRequest, Effect.isAlert]

theorem resetPassword_contract_witness :
    resetPassword "42" (some "pässwörd") =
      [.ajax "POST" "/api/admin/users/42/reset-password?newPassword=p%C3%A4ssw%C3%B6rd&resetBy=admin"
        .resetPassword] :=
  (resetPassword_contract "42" (some "pässwörd")).2.1 "pässwörd" rfl (by decide) (by decide)

/-- C8, amended: for every user id and every outcome of the minutes prompt, `lockUserAccount`
issues a lock request if and only if the prompt gave a text on which `parseInt` yields a number
greater than 0, that is a text that starts, after optional white space and an optional `+`,
with decimal digits not all `0`, or with `0x` or `0X` and hexadecimal digits not all `0`;
whatever follows those digits is ignored by the test and the whole text goes into the request
as `minutes`. In every other case no request is sent and no notification is shown. -/
theorem lockUserAccount_contract (userId : String) (prompted : Option String) :
    (∀ m, prompted = some m → StartsWithPositiveInteger m →
      lockUserAccount userId prompted =
        [.ajax "POST" (API_BASE_URL ++ "/users/" ++ userId ++ "/lock?minutes=" ++ m ++
          "&lockedBy=admin") .lockUserAccount]) ∧
    ((¬ ∃ m, prompted = some m ∧ StartsWithPositiveInteger m) →
      lockUserAccount userId prompted = []) := by
  cases prompted with
  | none => simp [lockUserAccount]
  | some m =>
    have hne : StartsWithPositiveInteger m → truthyStr m = true := by
      rintro ⟨ws, sign, digits, rest, hm, -, -, hd⟩
      have : digits ≠ [] := by
        rcases hd with ⟨-, c, hc, -⟩ | ⟨x, hs, rfl, -⟩
        · exact List.ne_nil_of_mem hc
        · simp
      simp only [truthyStr, hm, Bool.not_eq_true', List.isEmpty_eq_false]
      simp [this]
    constructor
    · intro m' hm' hs
      simp only [Option.some.injEq] at hm'
      subst hm'
      simp [lockUserAccount, hne hs, (gtZero_parseInt_iff_starts m).2 hs]
    · intro h
      have h' : ¬ StartsWithPositiveInteger m := fun hs => h ⟨m, rfl, hs⟩
      have hg : gtZero (parseInt m) = false := by
        rw [← gtZero_parseInt_iff_starts] at h'
        simpa using h'
      simp [lockUserAccount, hg]

theorem lockUserAccount_contract_witness :
    lockUserAccount "42" (some " +15 minutes") =
      [.ajax "POST" "/api/admin/users/42/lock?minutes= +15 minutes&lockedBy=admin"
        .lockUserAccount] :=
  (lockUserAccount_contract "42" (some " +15 minutes")).1 " +15 minutes" rfl
    ⟨" ".data, "+".data, "15".data, " minutes".data, by decide, by decide, by decide,
      Or.inl ⟨by decide, '1', by decide, by decide⟩⟩

/-- C8 as stated fails: the text `5abc` is not the decimal text of an integer, and
`lockUserAccount` sends the lock request on it, with `minutes=5abc`. -/
theorem lockUserAccount_counterexample :
    ¬ IsPositiveDecimalText "5abc" ∧
    lockUserAccount "42" (some "5abc") =
      [.ajax "POST" "/api/admin/users/42/lock?minutes=5abc&lockedBy=admin"
        .lockUserAccount] := by
  constructor
  · rintro ⟨h, -⟩
    exact absurd (h 'a' (by decide)) (by decide)
  · rfl

/-- C9, amended: for each admin action and every error response body that parses as JSON to a
value other than `null`, the error handler shows exactly one danger notification, whose text
is the `message` field of the body when the body is an object with that field and the field is
truthy (a non-empty string, for one), and the generic message of the action when the field is
absent or falsy. When the body does not parse as JSON the handler shows no notification: the
exception of `JSON.parse` leaves the handler; and when the body is `null` the access to
`message` throws likewise. -/
theorem onError_contract (a : AdminAction) (parsed : Except JsError JsValue) :
    (∀ props, parsed = .ok (.object props) → (lookupProp "message" props).truthy = true →
      onError a parsed = .ok [.alert (lookupProp "message" props) "danger"]) ∧
    (∀ props, parsed = .ok (.object props) → (lookupProp "message" props).truthy = false →
      onError a parsed = .ok [.alert (.string (genericError a)) "danger"]) ∧
    (∀ v, parsed = .ok v → v ≠ .null → v ≠ .undefined → (∀ props, v ≠ .object props) →
      onError a parsed = .ok [.alert (.string (genericError a)) "danger"]) ∧
    (∀ e, parsed = .error e → onError a parsed = .error e) ∧
    (parsed = .ok .null → onError a parsed = .error .typeError) := by
  refine ⟨?_, ?_, ?_, ?_, ?_⟩
  · rintro props rfl h
    simp [onError, JsValue.message, h]
  · rintro props rfl h
    simp [onError, JsValue.message, h]
  · rintro v rfl h1 h2 h3
    cases v with
    | undefined => exact absurd rfl h2
    | null => exact absurd rfl h1
    | object props => exact absurd rfl (h3 props)
    | bool b => simp [onError, JsValue.message, JsValue.truthy]
    | number x => simp [onError, JsValue.message, JsValue.truthy]
    | string s => simp [onError, JsValue.message, JsValue.truthy]
    | array xs => simp [onError, JsValue.message, JsValue.truthy]
  · rintro e rfl
    rfl
  · rintro rfl
    rfl

theorem onError_contract_witness :
    onError .blockUser (.ok (.object [("status", .number 409), ("message", .string "Locked")]))
      = .ok [.alert (.string "Locked") "danger"] :=
  (onError_contract .blockUser
    (.ok (.object [("status", .number 409), ("message", .string "Locked")]))).1
    [("status", .number 409), ("message", .string "Locked")] rfl rfl

/-- C9 as stated fails: when the body of the error response does not parse as JSON,
`JSON.parse` throws a `SyntaxError`, and the error handler of `createUser` ends with that
exception without having shown a notification. And when the body is an object whose `message`
field is present and is the empty string, the text shown is the generic one, not the field. -/
theorem onError_counterexample :
    onError .createUser (.error .syntaxError) = .error .syntaxError ∧
    (¬ ∃ effects, onError .createUser (.error .syntaxError) = .ok effects) ∧
    onError .createUser (.ok (.object [("message", .string "")]))
      = .ok [.alert (.string "Error creating user") "danger"] := by
  refine ⟨rfl, ?_, rfl⟩
  rintro ⟨effects, h⟩
  simp [onError] at h

end Admin
